import Mathlib

/-!
Verification development for the color-spot tracking notebook
(Module4/Exercise 2, `FindFaceAndColor.ipynb`).

Shallow embedding conventions:

* A raw frame is a total function from (row, column) positions to RGB
  triples of natural numbers; the notebook only copies pixels and
  overwrites box edges, so no arithmetic on pixel values is needed.
* The acquisition-loop push block
  (`if frames.full(): frames.get(); frames.task_done() else: frames.put(...)`)
  is embedded as `try_push`; the worker's `frames.get_nowait()` as
  `get_nowait`.  `queue.Queue(maxsize = 10)` stores entries in FIFO
  order, so the queue is a `List` with the head as oldest entry.
* `ImageProcessor.dowork` is embedded as `dowork`.  The two external
  library calls it makes — PIL resizing (`resizeNPArray`) and
  `sklearn.cluster.KMeans` — are not part of this repository, so their
  results (the downsampled frame's cluster labels, reshaped (60, 80),
  and the 6 cluster centroids in the 5-dimensional feature space) enter
  `dowork` as parameters.  The float arithmetic of the notebook is
  embedded as exact rational arithmetic over `ℚ`.
* The thread structure (one camera loop plus three `ImageProcessor`
  threads sharing one `threading.Lock`) is embedded as a small-step
  interleaving machine further below.
-/

/-! ### Frame queue (cell 8 acquisition loop, `queue.Queue(maxsize = 10)`) -/

/-- `maxsize = 10` of the shared frame queue. -/
def queueCapacity : ℕ := 10

/-- The acquisition-loop push block, executed under the lock:
`if frames.full(): frames.get(); frames.task_done() else: frames.put(freshest_frame)`.
`frames.full()` is `queueCapacity ≤ length`; `frames.get()` removes the
oldest (head) entry; `frames.put` appends at the back.  Note that in the
full branch the freshly captured frame is **not** enqueued. -/
def try_push (q : List ℕ) (f : ℕ) : List ℕ :=
  if queueCapacity ≤ q.length then q.tail else q ++ [f]

/-- The worker's `frames.get_nowait()`: remove and return the oldest
entry, or signal `queue.Empty` (here `none`) without blocking. -/
def get_nowait (q : List ℕ) : Option (ℕ × List ℕ) :=
  match q with
  | [] => none
  | x :: rest => some (x, rest)

/-! ### Supervisor control flow (cell 8, `with picamera.PiCamera() ...`) -/

/-- One iteration's outcome of `camera.capture_sequence`: either a frame
(identified by a number) or a raised acquisition error. -/
inductive CapResult
  | frame (f : ℕ)
  | failure
deriving DecidableEq

/-- The `while time.time() - start < time_to_run` loop: each captured
frame goes through the locked push block; a capture error propagates out
of the `with` block (`Except.error`), carrying the queue state at that
point. -/
def acquisitionLoop : List CapResult → List ℕ → Except (List ℕ) (List ℕ)
  | [], q => Except.ok q
  | CapResult.frame f :: rest, q => acquisitionLoop rest (try_push q f)
  | CapResult.failure :: _, q => Except.error q

/-- Observable end state of one run of cell 8: whether
`thread_stopper.set()` ran, whether all three `join()` calls ran,
whether the run ended with a propagated exception, and the final queue. -/
structure SessionEnd where
  stopSet : Bool
  joinedAll : Bool
  failed : Bool
  finalQueue : List ℕ
deriving DecidableEq

/-- Cell 8 after the capture loop: `thread_stopper.set()` and the three
`join()` calls are straight-line statements after the `with` block, so
they run exactly when the loop finished normally; an exception raised
inside the `with` block skips them. -/
def superRun (caps : List CapResult) : SessionEnd :=
  match acquisitionLoop caps [] with
  | Except.ok q => ⟨true, true, false, q⟩
  | Except.error q => ⟨false, false, true, q⟩

/-! ### `ImageProcessor.dowork` -/

/-- A full-resolution RGB frame: row, column ↦ (R, G, B). -/
abbrev Frame := ℕ → ℕ → ℕ × ℕ × ℕ

/-- Per-pixel cluster labels of the downsampled 80×60 frame, reshaped
to (60, 80) as in `kmeans.labels_.reshape((60, 80))`. -/
abbrev Labels := Fin 60 → Fin 80 → Fin 6

/-- `kmeans.cluster_centers_`: 6 centroids in the 5-dimensional
(R, G, B, row, col) feature space. -/
abbrev Centers := Fin 6 → Fin 5 → ℚ

/-- `color_threshold = 0.07`. -/
def color_threshold : ℚ := 7 / 100

/-- Squared Euclidean distance from `target_color` to the color
sub-vector (`rgb_centers = kmeans.cluster_centers_[:, 0:3]`) of
centroid `j`; the notebook's `closest` array is the square root of
this, which has the same argmin. -/
def rgbDist2 (centers : Centers) (target : Fin 3 → ℚ) (j : Fin 6) : ℚ :=
  ∑ d : Fin 3, (centers j (Fin.castLE (by norm_num) d) - target d) ^ 2

/-- `np.argmin`: the index of the first occurrence of the minimum
value. -/
def argminIdx (f : Fin 6 → ℚ) : Fin 6 :=
  ((List.finRange 6).find? (fun j => decide (∀ k, f j ≤ f k))).getD 0

/-- `closest_label = closest.argmin()` where
`closest = np.sqrt(np.power(rgb_centers - target_color, 2).sum(axis = 1))`;
since the square root is monotone this is the argmin of `rgbDist2`. -/
def closest_label (centers : Centers) (target : Fin 3 → ℚ) : Fin 6 :=
  argminIdx (rgbDist2 centers target)

/-- `labels = (kmeans.labels_.reshape((60, 80)) == closest_label)`:
the boolean mask of pixels carrying the selected cluster's label. -/
def targetMask (labels : Labels) (centers : Centers) (target : Fin 3 → ℚ) :
    Fin 60 → Fin 80 → Bool :=
  fun r c => labels r c == closest_label centers target

/-- `sum_labels_vertical = labels.sum(axis = 1)`: per-row mask count. -/
def sum_labels_vertical (m : Fin 60 → Fin 80 → Bool) (r : Fin 60) : ℕ :=
  (Finset.univ.filter (fun c => m r c)).card

/-- `sum_labels_horizontal = labels.sum(axis = 0)`: per-column mask count. -/
def sum_labels_horizontal (m : Fin 60 → Fin 80 → Bool) (c : Fin 80) : ℕ :=
  (Finset.univ.filter (fun r => m r c)).card

/-- `sum_labels_vertical.sum()`: total number of masked pixels. -/
def totalMaskCount (m : Fin 60 → Fin 80 → Bool) : ℕ :=
  ∑ r : Fin 60, sum_labels_vertical m r

/-- The rows with nonzero mask count
(`np.nonzero(sum_labels_vertical)`). -/
def rowsNonzero (m : Fin 60 → Fin 80 → Bool) : Finset (Fin 60) :=
  Finset.univ.filter (fun r => sum_labels_vertical m r ≠ 0)

/-- The columns with nonzero mask count
(`np.nonzero(sum_labels_horizontal)`). -/
def colsNonzero (m : Fin 60 → Fin 80 → Bool) : Finset (Fin 80) :=
  Finset.univ.filter (fun c => sum_labels_horizontal m c ≠ 0)

/-- The bounding box computed by `dowork` when the area guard passes:
`if not sum_labels_vertical.sum() > color_threshold * 4800: return (None, output)`
and otherwise
`min_vertical = np.min(np.nonzero(sum_labels_vertical)) * 4` and its
three companions.  `np.min`/`np.max` of an empty index set would raise;
here the nonemptiness proofs are derived from the guard, which is
exactly why that error branch is unreachable. -/
def detectionBox (labels : Labels) (centers : Centers) (target : Fin 3 → ℚ) :
    Option (ℕ × ℕ × ℕ × ℕ) :=
  let m := targetMask labels centers target
  if h : ¬ ((totalMaskCount m : ℚ) > color_threshold * 4800) then
    none
  else
    have hP : (totalMaskCount m : ℚ) > color_threshold * 4800 := not_not.mp h
    have htot : totalMaskCount m ≠ 0 := by
      intro h0
      rw [h0] at hP
      norm_num [color_threshold] at hP
    have hrows : (rowsNonzero m).Nonempty := by
      unfold totalMaskCount at htot
      obtain ⟨r, _, hne⟩ := Finset.exists_ne_zero_of_sum_ne_zero htot
      exact ⟨r, Finset.mem_filter.mpr ⟨Finset.mem_univ r, hne⟩⟩
    have hcols : (colsNonzero m).Nonempty := by
      have hswap : totalMaskCount m = ∑ c : Fin 80, sum_labels_horizontal m c := by
        unfold totalMaskCount sum_labels_vertical sum_labels_horizontal
        simp only [Finset.card_filter]
        exact Finset.sum_comm
      rw [hswap] at htot
      obtain ⟨c, _, hne⟩ := Finset.exists_ne_zero_of_sum_ne_zero htot
      exact ⟨c, Finset.mem_filter.mpr ⟨Finset.mem_univ c, hne⟩⟩
    let min_vertical := 4 * ((rowsNonzero m).min' hrows).val
    let max_vertical := 4 * ((rowsNonzero m).max' hrows).val
    let min_horizontal := 4 * ((colsNonzero m).min' hcols).val
    let max_horizontal := 4 * ((colsNonzero m).max' hcols).val
    some (min_vertical, max_vertical, min_horizontal, max_horizontal)

/-- Whether full-resolution pixel (r, c) lies on one of the four drawn
box edges: the notebook's four slice assignments
`output[min_vertical:max_vertical+1, min_horizontal, :] = border` etc. -/
def onBoxEdge (mv xv mh xh r c : ℕ) : Bool :=
  ((c == mh || c == xh) && decide (mv ≤ r) && decide (r ≤ xv)) ||
    ((r == mv || r == xv) && decide (mh ≤ c) && decide (c ≤ xh))

/-- `ImageProcessor.dowork`: `output = array.copy()`; the resize and
KMeans results enter as `labels`/`centers`; below the area guard the
notebook draws the four box edges into `output` with `border_color` and
returns `((min_vertical + max_vertical) / 2, output)`, else
`(None, output)` with `output` the untouched copy. -/
def dowork (array : Frame) (labels : Labels) (centers : Centers)
    (target : Fin 3 → ℚ) (border : ℕ × ℕ × ℕ) : Option ℚ × Frame :=
  match detectionBox labels centers target with
  | none => (none, array)
  | some (mv, xv, mh, xh) =>
      (some (((mv : ℚ) + (xv : ℚ)) / 2),
       fun r c => if onBoxEdge mv xv mh xh r c then border else array r c)

/-! ### Thread interleaving machine (cell 8 + `ImageProcessor.run`) -/

/-- Threads of control: the camera acquisition loop (`prod`) and the
three `ImageProcessor` threads (Red, Green, Blue). -/
inductive Tid
  | prod
  | work (i : Fin 3)
deriving DecidableEq

/-- Program counter of the acquisition loop body:
`p0` before `lock.acquire()`, `p1` about to evaluate `frames.full()`,
`p2` about to run `frames.get(); frames.task_done()` (full branch),
`p3` about to run `frames.put(freshest_frame)` (else branch),
`p4` about to run `lock.release()`. -/
inductive PPc
  | p0
  | p1
  | p2
  | p3
  | p4
deriving DecidableEq

/-- Program counter of `ImageProcessor.run`'s loop body:
`w0` before `self.lock.acquire()`, `w1` about to call
`self.frames.get_nowait()`, `w2` about to run
`self.dowork(self.incoming)` and `self.frames.task_done()` (still
inside the `try`), `w3` about to run `self.lock.release()` (the
`finally`) after a successful pop, `w4` about to run
`showarray(self.processed)` outside the lock, `w5` about to run the
`finally` release on the `queue.Empty` path, whose `continue` then
skips the display. -/
inductive WPc
  | w0
  | w1
  | w2
  | w3
  | w4
  | w5
deriving DecidableEq

/-- Shared state: the single `threading.Lock` (holder, if any), the
frame queue, all program counters, and a counter naming the next
captured frame. -/
structure MState where
  lock : Option Tid
  q : List ℕ
  ppc : PPc
  wpc : Fin 3 → WPc
  nextF : ℕ

/-- Start of the session: lock free, queue empty, every thread at the
top of its loop. -/
def initState : MState := ⟨none, [], PPc.p0, fun _ => WPc.w0, 0⟩

/-- One interleaving step.  `lock.acquire()` only proceeds when the
lock is free; every other statement is a plain transition of the
executing thread. -/
inductive MStep : MState → MState → Prop
  | pAcquire (s : MState) (h1 : s.lock = none) (h2 : s.ppc = PPc.p0) :
      MStep s { s with lock := some Tid.prod, ppc := PPc.p1 }
  | pFull (s : MState) (h : s.ppc = PPc.p1) (hf : queueCapacity ≤ s.q.length) :
      MStep s { s with ppc := PPc.p2 }
  | pNotFull (s : MState) (h : s.ppc = PPc.p1) (hf : s.q.length < queueCapacity) :
      MStep s { s with ppc := PPc.p3 }
  | pGet (s : MState) (h : s.ppc = PPc.p2) :
      MStep s { s with q := s.q.tail, ppc := PPc.p4 }
  | pPut (s : MState) (h : s.ppc = PPc.p3) :
      MStep s { s with q := s.q ++ [s.nextF], nextF := s.nextF + 1, ppc := PPc.p4 }
  | pRelease (s : MState) (h : s.ppc = PPc.p4) :
      MStep s { s with lock := none, ppc := PPc.p0 }
  | wAcquire (s : MState) (i : Fin 3) (h1 : s.lock = none) (h2 : s.wpc i = WPc.w0) :
      MStep s { s with lock := some (Tid.work i), wpc := Function.update s.wpc i WPc.w1 }
  | wGetSucc (s : MState) (i : Fin 3) (h : s.wpc i = WPc.w1) (hq : s.q ≠ []) :
      MStep s { s with q := s.q.tail, wpc := Function.update s.wpc i WPc.w2 }
  | wGetEmpty (s : MState) (i : Fin 3) (h : s.wpc i = WPc.w1) (hq : s.q = []) :
      MStep s { s with wpc := Function.update s.wpc i WPc.w5 }
  | wAnalyze (s : MState) (i : Fin 3) (h : s.wpc i = WPc.w2) :
      MStep s { s with wpc := Function.update s.wpc i WPc.w3 }
  | wRelease (s : MState) (i : Fin 3) (h : s.wpc i = WPc.w3) :
      MStep s { s with lock := none, wpc := Function.update s.wpc i WPc.w4 }
  | wReleaseEmpty (s : MState) (i : Fin 3) (h : s.wpc i = WPc.w5) :
      MStep s { s with lock := none, wpc := Function.update s.wpc i WPc.w0 }
  | wDisplay (s : MState) (i : Fin 3) (h : s.wpc i = WPc.w4) :
      MStep s { s with wpc := Function.update s.wpc i WPc.w0 }

/-- States reachable from the session start. -/
def Reachable (s : MState) : Prop := Relation.ReflTransGen MStep initState s

/-- Thread `t` is inside its lock-protected region (the statements
between `acquire()` and `release()`). -/
def holdsRegion (s : MState) : Tid → Prop
  | Tid.prod => s.ppc ≠ PPc.p0
  | Tid.work i =>
      s.wpc i = WPc.w1 ∨ s.wpc i = WPc.w2 ∨ s.wpc i = WPc.w3 ∨ s.wpc i = WPc.w5

/-- Thread `t`'s next statement reads or writes the shared queue
(`frames.full()`, `frames.get()`, `frames.put`, `frames.get_nowait()`). -/
def accessingQueue (s : MState) : Tid → Prop
  | Tid.prod => s.ppc = PPc.p1 ∨ s.ppc = PPc.p2 ∨ s.ppc = PPc.p3
  | Tid.work _i => s.wpc _i = WPc.w1

/-- Machine invariant: bounded queue, the lock holder is exactly the
thread inside its critical region, and the producer reaches the `put`
statement only having seen a non-full queue. -/
def MachineInv (s : MState) : Prop :=
  s.q.length ≤ queueCapacity ∧
  (∀ t : Tid, holdsRegion s t ↔ s.lock = some t) ∧
  (s.ppc = PPc.p3 → s.q.length < queueCapacity)

/-! ### KMeans contract and a concrete converged clustering -/

/-- Number of downsampled pixels carrying label `j`. -/
def clusterSize (labels : Labels) (j : Fin 6) : ℕ :=
  ∑ r : Fin 60, (Finset.univ.filter (fun c => labels r c = j)).card

/-- Squared Euclidean distance in the 5-dimensional feature space. -/
def featDist2 (x y : Fin 5 → ℚ) : ℚ :=
  ∑ d : Fin 5, (x d - y d) ^ 2

/-- Modelled from the spec: the clustering step is performed by
`sklearn.cluster.KMeans`, whose code is not part of this repository.
Spec §4.2 describes it as a Lloyd's-style partition procedure over all
4800 five-dimensional feature vectors with 6 clusters, and the glossary
defines a centroid as "the mean feature vector representing one
partition".  A converged outcome therefore satisfies: every cluster is
nonempty, every centroid is the mean feature vector of its members
(stated multiplicatively to avoid division), and every pixel is
assigned to a centroid of minimal distance to its feature vector. -/
structure IsKMeansOutcome (feats : Fin 60 → Fin 80 → Fin 5 → ℚ)
    (labels : Labels) (centers : Centers) : Prop where
  nonempty : ∀ j : Fin 6, 0 < clusterSize labels j
  centroid : ∀ (j : Fin 6) (d : Fin 5),
    (clusterSize labels j : ℚ) * centers j d =
      ∑ r : Fin 60, ∑ c : Fin 80, if labels r c = j then feats r c d else 0
  assign : ∀ (r : Fin 60) (c : Fin 80) (j : Fin 6),
    featDist2 (feats r c) (centers (labels r c)) ≤ featDist2 (feats r c) (centers j)

/-- The 320×240 uniformly red frame of the end-to-end scenario. -/
def uniformRed : Frame := fun _ _ => (255, 0, 0)

/-- `target_color = np.array([255, 0, 0])` as rationals. -/
def targetRed : Fin 3 → ℚ := ![255, 0, 0]

/-- Feature vectors of the downsampled uniformly red frame
(`np.concatenate((array, verticals, horizontals), axis = 2)`): every
color entry is (255, 0, 0) — resizing a constant image is constant —
and the position entries are the row and column indices. -/
def uniformFeats : Fin 60 → Fin 80 → Fin 5 → ℚ :=
  fun r c => ![255, 0, 0, (r : ℚ), (c : ℚ)]

/-- Strip index of a column: the 80 columns split into six vertical
strips of widths 14, 13, 13, 13, 13, 14. -/
def stripIdx (c : Fin 80) : Fin 6 :=
  if c.val ≤ 13 then 0 else if c.val ≤ 26 then 1 else if c.val ≤ 39 then 2
  else if c.val ≤ 52 then 3 else if c.val ≤ 65 then 4 else 5

/-- Labeling of the downsampled uniform frame by vertical strips. -/
def stripLabels : Labels := fun _ c => stripIdx c

/-- The columns of each strip. -/
def stripCols (j : Fin 6) : Finset (Fin 80) :=
  Finset.univ.filter (fun c => stripIdx c = j)

/-- Width of each strip (14, 13, 13, 13, 13, 14). -/
def stripWidth (j : Fin 6) : ℕ := (stripCols j).card

/-- Twice the mean column of each strip: 13, 40, 66, 92, 118, 145. -/
def mTwiceNat : Fin 6 → ℕ := ![13, 40, 66, 92, 118, 145]

/-- Mean column of each strip: 13/2, 20, 33, 46, 59, 145/2. -/
def stripColMean : Fin 6 → ℚ := fun j => (mTwiceNat j : ℚ) / 2

/-- Centroids of the strip clustering of the uniform frame: color part
equal to the frame color, row part the mean row 59/2, column part the
strip's mean column. -/
def stripCenters : Centers := fun j => ![255, 0, 0, 59 / 2, stripColMean j]

/-! ### Concrete inputs used to exercise the embedding -/

/-- States of a concrete six-step execution: the producer pushes one
frame and releases the lock, then worker 0 acquires the lock and pops
the frame, arriving at its `dowork` call with the lock still held. -/
def traceS1 : MState := ⟨some Tid.prod, [], PPc.p1, fun _ => WPc.w0, 0⟩

/-- Second state of the execution behind `traceS1`. -/
def traceS2 : MState := ⟨some Tid.prod, [], PPc.p3, fun _ => WPc.w0, 0⟩

/-- Third state: frame 0 enqueued. -/
def traceS3 : MState := ⟨some Tid.prod, [0], PPc.p4, fun _ => WPc.w0, 1⟩

/-- Fourth state: producer released the lock. -/
def traceS4 : MState := ⟨none, [0], PPc.p0, fun _ => WPc.w0, 1⟩

/-- Fifth state: worker 0 holds the lock, about to call
`get_nowait`. -/
def traceS5 : MState :=
  ⟨some (Tid.work 0), [0], PPc.p0, Function.update (fun _ => WPc.w0) 0 WPc.w1, 1⟩

/-- Sixth state: worker 0 popped the frame and is about to run
`dowork` — still holding the lock. -/
def traceS6 : MState :=
  ⟨some (Tid.work 0), [], PPc.p0,
    Function.update (Function.update (fun _ => WPc.w0) 0 WPc.w1) 0 WPc.w2, 1⟩


/-- Labeling that puts every downsampled pixel in cluster 0. -/
def allLabel0 : Labels := fun _ _ => 0

/-- Labeling that puts every downsampled pixel in cluster 1. -/
def allLabel1 : Labels := fun _ _ => 1

/-- Centroids all at the origin of feature space. -/
def zeroCenters : Centers := fun _ _ => 0

/-- Target color (0, 0, 0). -/
def zeroTarget : Fin 3 → ℚ := fun _ => 0

/-- Centroids whose color parts are (1,1,1), (-1,-1,-1), (9,9,9), ...:
clusters 0 and 1 are equidistant from the target (0,0,0). -/
def tieCenters : Centers := fun j _ => if j = 0 then 1 else if j = 1 then -1 else 9

/-! ### Helper lemmas -/

theorem threshold_iff (n : ℕ) : ((n : ℚ) > color_threshold * 4800) ↔ 336 < n := by
  have h336 : color_threshold * (4800 : ℚ) = 336 := by norm_num [color_threshold]
  rw [gt_iff_lt, h336]
  exact_mod_cast Iff.rfl

theorem rowsNonzero_ne (m : Fin 60 → Fin 80 → Bool) (h : totalMaskCount m ≠ 0) :
    (rowsNonzero m).Nonempty := by
  unfold totalMaskCount at h
  obtain ⟨r, _, hne⟩ := Finset.exists_ne_zero_of_sum_ne_zero h
  exact ⟨r, Finset.mem_filter.mpr ⟨Finset.mem_univ r, hne⟩⟩

theorem totalMaskCount_swap (m : Fin 60 → Fin 80 → Bool) :
    totalMaskCount m = ∑ c : Fin 80, sum_labels_horizontal m c := by
  unfold totalMaskCount sum_labels_vertical sum_labels_horizontal
  simp only [Finset.card_filter]
  exact Finset.sum_comm

theorem colsNonzero_ne (m : Fin 60 → Fin 80 → Bool) (h : totalMaskCount m ≠ 0) :
    (colsNonzero m).Nonempty := by
  rw [totalMaskCount_swap] at h
  obtain ⟨c, _, hne⟩ := Finset.exists_ne_zero_of_sum_ne_zero h
  exact ⟨c, Finset.mem_filter.mpr ⟨Finset.mem_univ c, hne⟩⟩

theorem mem_rowsNonzero {m : Fin 60 → Fin 80 → Bool} {r : Fin 60} :
    r ∈ rowsNonzero m ↔ sum_labels_vertical m r ≠ 0 := by
  unfold rowsNonzero
  simp

theorem mem_colsNonzero {m : Fin 60 → Fin 80 → Bool} {c : Fin 80} :
    c ∈ colsNonzero m ↔ sum_labels_horizontal m c ≠ 0 := by
  unfold colsNonzero
  simp

theorem detectionBox_none (labels : Labels) (centers : Centers) (target : Fin 3 → ℚ)
    (h : totalMaskCount (targetMask labels centers target) ≤ 336) :
    detectionBox labels centers target = none := by
  have hn : ¬ ((totalMaskCount (targetMask labels centers target) : ℚ) >
      color_threshold * 4800) := by
    rw [threshold_iff]
    omega
  simp only [detectionBox]
  rw [dif_pos hn]

theorem detectionBox_some (labels : Labels) (centers : Centers) (target : Fin 3 → ℚ)
    (h : 336 < totalMaskCount (targetMask labels centers target)) :
    detectionBox labels centers target =
      some (4 * ((rowsNonzero (targetMask labels centers target)).min'
              (rowsNonzero_ne _ (by omega))).val,
            4 * ((rowsNonzero (targetMask labels centers target)).max'
              (rowsNonzero_ne _ (by omega))).val,
            4 * ((colsNonzero (targetMask labels centers target)).min'
              (colsNonzero_ne _ (by omega))).val,
            4 * ((colsNonzero (targetMask labels centers target)).max'
              (colsNonzero_ne _ (by omega))).val) := by
  have hn : ¬ ¬ ((totalMaskCount (targetMask labels centers target) : ℚ) >
      color_threshold * 4800) := by
    rw [not_not, threshold_iff]
    omega
  simp only [detectionBox]
  rw [dif_neg hn]

theorem find?_first_of_pairwise (p : Fin 6 → Bool) :
    ∀ l : List (Fin 6), l.Pairwise (· < ·) →
      ∀ a : Fin 6, l.find? p = some a → ∀ b ∈ l, p b = true → a ≤ b := by
  intro l
  induction l with
  | nil =>
    intro _ a ha
    simp at ha
  | cons x xs ih =>
    intro hl a ha b hb hpb
    rcases List.pairwise_cons.mp hl with ⟨hx, hxs⟩
    by_cases hpx : p x = true
    · rw [List.find?_cons_of_pos _ hpx] at ha
      injection ha with ha
      subst ha
      rcases List.mem_cons.mp hb with rfl | hb2
      · exact le_refl _
      · exact le_of_lt (hx b hb2)
    · rw [List.find?_cons_of_neg _ hpx] at ha
      rcases List.mem_cons.mp hb with rfl | hb2
      · exact absurd hpb hpx
      · exact ih hxs a ha b hb2 hpb

theorem argminIdx_spec (f : Fin 6 → ℚ) :
    (∀ k, f (argminIdx f) ≤ f k) ∧
      (∀ b : Fin 6, (∀ k, f b ≤ f k) → argminIdx f ≤ b) := by
  obtain ⟨jmin, _, hjmin⟩ := Finset.exists_min_image Finset.univ f ⟨0, Finset.mem_univ 0⟩
  have hex : ∃ x ∈ List.finRange 6, (fun j => decide (∀ k, f j ≤ f k)) x = true :=
    ⟨jmin, List.mem_finRange _, decide_eq_true (fun k => hjmin k (Finset.mem_univ k))⟩
  obtain ⟨a, ha⟩ := Option.isSome_iff_exists.mp (List.find?_isSome.mpr hex)
  have hal : argminIdx f = a := by
    unfold argminIdx
    rw [ha]
    rfl
  have hpa := List.find?_some ha
  have hmin : ∀ k, f a ≤ f k := of_decide_eq_true hpa
  rw [hal]
  refine ⟨hmin, fun b hb => ?_⟩
  exact find?_first_of_pairwise _ _ (List.pairwise_lt_finRange 6) a ha b
    (List.mem_finRange b) (decide_eq_true hb)

theorem argminIdx_eq_zero (f : Fin 6 → ℚ) (h : ∀ k, f 0 ≤ f k) : argminIdx f = 0 :=
  Fin.le_zero_iff.mp ((argminIdx_spec f).2 0 h)

theorem closest_label_zeroCenters : closest_label zeroCenters zeroTarget = 0 :=
  argminIdx_eq_zero _ (by
    intro k
    simp [rgbDist2, zeroCenters, zeroTarget])

theorem mask_allLabel0 :
    targetMask allLabel0 zeroCenters zeroTarget = fun _ _ => true := by
  funext r c
  simp [targetMask, allLabel0, closest_label_zeroCenters]

theorem mask_allLabel1 :
    targetMask allLabel1 zeroCenters zeroTarget = fun _ _ => false := by
  funext r c
  simp [targetMask, allLabel1, closest_label_zeroCenters]

set_option maxRecDepth 40000 in
theorem total_allLabel1 : totalMaskCount (targetMask allLabel1 zeroCenters zeroTarget) = 0 := by
  rw [mask_allLabel1]
  decide

set_option maxRecDepth 40000 in
theorem total_allLabel0 : totalMaskCount (targetMask allLabel0 zeroCenters zeroTarget) = 4800 := by
  rw [mask_allLabel0]
  decide

theorem threshold_le_iff (n : ℕ) :
    ((n : ℚ) ≤ color_threshold * (80 * 60)) ↔ n ≤ 336 := by
  have h336 : color_threshold * ((80 : ℚ) * 60) = 336 := by norm_num [color_threshold]
  rw [h336]
  exact_mod_cast Iff.rfl

set_option maxRecDepth 40000 in
theorem box_allLabel0 :
    detectionBox allLabel0 zeroCenters zeroTarget = some (0, 236, 0, 316) := by
  have h336 : 336 < totalMaskCount (targetMask allLabel0 zeroCenters zeroTarget) := by
    rw [total_allLabel0]
    norm_num
  rw [detectionBox_some _ _ _ h336]
  have e1 : ∀ H, (rowsNonzero (targetMask allLabel0 zeroCenters zeroTarget)).min' H =
      (0 : Fin 60) := by
    intro H
    apply Fin.le_zero_iff.mp
    apply Finset.min'_le
    rw [mask_allLabel0]
    decide
  have e2 : ∀ H, (rowsNonzero (targetMask allLabel0 zeroCenters zeroTarget)).max' H =
      (⟨59, by norm_num⟩ : Fin 60) := by
    intro H
    apply le_antisymm
    · rw [Fin.le_def]
      have hlt := ((rowsNonzero (targetMask allLabel0 zeroCenters zeroTarget)).max' H).isLt
      show ((rowsNonzero (targetMask allLabel0 zeroCenters zeroTarget)).max' H).val ≤ 59
      omega
    · apply Finset.le_max'
      rw [mask_allLabel0]
      decide
  have e3 : ∀ H, (colsNonzero (targetMask allLabel0 zeroCenters zeroTarget)).min' H =
      (0 : Fin 80) := by
    intro H
    apply Fin.le_zero_iff.mp
    apply Finset.min'_le
    rw [mask_allLabel0]
    decide
  have e4 : ∀ H, (colsNonzero (targetMask allLabel0 zeroCenters zeroTarget)).max' H =
      (⟨79, by norm_num⟩ : Fin 80) := by
    intro H
    apply le_antisymm
    · rw [Fin.le_def]
      have hlt := ((colsNonzero (targetMask allLabel0 zeroCenters zeroTarget)).max' H).isLt
      show ((colsNonzero (targetMask allLabel0 zeroCenters zeroTarget)).max' H).val ≤ 79
      omega
    · apply Finset.le_max'
      rw [mask_allLabel0]
      decide
  rw [e1, e2, e3, e4]
  rfl

theorem dowork_allLabel0_fst (array : Frame) (border : ℕ × ℕ × ℕ) :
    (dowork array allLabel0 zeroCenters zeroTarget border).1 = some 118 := by
  unfold dowork
  rw [box_allLabel0]
  norm_num

theorem dowork_allLabel1_none (array : Frame) (border : ℕ × ℕ × ℕ) :
    dowork array allLabel1 zeroCenters zeroTarget border = (none, array) := by
  have h := detectionBox_none allLabel1 zeroCenters zeroTarget (by rw [total_allLabel1]; omega)
  unfold dowork
  rw [h]

theorem dowork_eq_none (array : Frame) (labels : Labels) (centers : Centers)
    (target : Fin 3 → ℚ) (border : ℕ × ℕ × ℕ)
    (h : detectionBox labels centers target = none) :
    dowork array labels centers target border = (none, array) := by
  unfold dowork
  rw [h]

theorem dowork_eq_some (array : Frame) (labels : Labels) (centers : Centers)
    (target : Fin 3 → ℚ) (border : ℕ × ℕ × ℕ) {mv xv mh xh : ℕ}
    (h : detectionBox labels centers target = some (mv, xv, mh, xh)) :
    dowork array labels centers target border =
      (some (((mv : ℚ) + (xv : ℚ)) / 2),
       fun r c => if onBoxEdge mv xv mh xh r c then border else array r c) := by
  unfold dowork
  rw [h]

theorem foldl_try_push_sublist (fs : List ℕ) :
    ∀ q l : List ℕ, q.Sublist l → (fs.foldl try_push q).Sublist (l ++ fs) := by
  induction fs with
  | nil =>
    intro q l h
    simpa using h
  | cons f fs ih =>
    intro q l h
    have h1 : (try_push q f).Sublist (l ++ [f]) := by
      unfold try_push
      split
      · exact (List.tail_sublist q).trans (h.trans (List.sublist_append_left l [f]))
      · exact List.Sublist.append h (List.Sublist.refl [f])
    have h2 := ih (try_push q f) (l ++ [f]) h1
    simpa [List.append_assoc] using h2

theorem foldl_try_push_length (fs : List ℕ) :
    ∀ q : List ℕ, q.length ≤ queueCapacity → (fs.foldl try_push q).length ≤ queueCapacity := by
  induction fs with
  | nil =>
    intro q h
    simpa using h
  | cons f fs ih =>
    intro q h
    apply ih
    unfold try_push
    split
    · rw [List.length_tail]
      omega
    · rw [List.length_append]
      rename_i hc
      simp only [not_le] at hc
      simp
      omega

theorem acquisitionLoop_error_iff (caps : List CapResult) :
    ∀ q : List ℕ, (∃ e, acquisitionLoop caps q = Except.error e) ↔
      CapResult.failure ∈ caps := by
  induction caps with
  | nil =>
    intro q
    simp [acquisitionLoop]
  | cons ca rest ih =>
    intro q
    cases ca with
    | frame f =>
      simp only [acquisitionLoop, List.mem_cons]
      rw [ih (try_push q f)]
      simp
    | failure =>
      simp [acquisitionLoop]

/-! ### Claim theorems -/

/-- C1 (counterexample): pushing frame 10 onto the full queue
[0,...,9] does not drop the oldest and append the new frame — the code
removes the oldest entry and discards the new frame, so after eleven
pushes the queue holds [1,...,9], not the ten most recent frames
[1,...,10]. -/
theorem C1_drop_oldest_counterexample :
    try_push [0, 1, 2, 3, 4, 5, 6, 7, 8, 9] 10 = [1, 2, 3, 4, 5, 6, 7, 8, 9] ∧
    try_push [0, 1, 2, 3, 4, 5, 6, 7, 8, 9] 10 ≠ [1, 2, 3, 4, 5, 6, 7, 8, 9, 10] ∧
    (List.range 11).foldl try_push [] = [1, 2, 3, 4, 5, 6, 7, 8, 9] := by
  decide

/-- C1 (amended): a push onto a full queue (length = 10) removes the
oldest entry and discards the new frame without appending it; a push
onto a non-full queue appends.  The queue length never exceeds 10 and
the surviving frames are a subsequence of the pushed frames in arrival
order, but they are not in general the 10 most recently pushed. -/
theorem C1_drop_oldest_amended :
    (∀ (q : List ℕ) (f : ℕ),
      (queueCapacity ≤ q.length → try_push q f = q.tail) ∧
      (q.length < queueCapacity → try_push q f = q ++ [f]) ∧
      (q.length ≤ queueCapacity → (try_push q f).length ≤ queueCapacity)) ∧
    (∀ fs : List ℕ,
      (fs.foldl try_push []).Sublist fs ∧
      (fs.foldl try_push []).length ≤ queueCapacity) := by
  constructor
  · intro q f
    refine ⟨fun hf => ?_, fun hnf => ?_, fun hle => ?_⟩
    · unfold try_push
      rw [if_pos hf]
    · unfold try_push
      rw [if_neg (by omega)]
    · unfold try_push
      split
      · rw [List.length_tail]
        omega
      · rw [List.length_append]
        rename_i hc
        simp only [not_le] at hc
        simp
        omega
  · intro fs
    refine ⟨?_, ?_⟩
    · simpa using foldl_try_push_sublist fs [] [] (List.Sublist.refl [])
    · exact foldl_try_push_length fs [] (by simp [queueCapacity])

/-- C1 (witness): the amended full-queue behavior at a concrete full
queue. -/
theorem C1_drop_oldest_amended_witness :
    queueCapacity ≤ ([0, 1, 2, 3, 4, 5, 6, 7, 8, 9] : List ℕ).length ∧
    try_push [0, 1, 2, 3, 4, 5, 6, 7, 8, 9] 99 = [1, 2, 3, 4, 5, 6, 7, 8, 9] :=
  ⟨by decide, (C1_drop_oldest_amended.1 [0, 1, 2, 3, 4, 5, 6, 7, 8, 9] 99).1 (by decide)⟩

/-- C2: per-frame analysis reports no detection (`None` position) iff
the masked pixel count is at most `color_threshold` times the 80×60
downsampled pixel count (= 336), so a count of exactly 336 yields no
detection and any count of 337 or more yields a detection; an all-false
mask goes through this same threshold-failure branch and returns the
untouched copy of the input, never an error. -/
theorem C2_no_detection_iff (array : Frame) (labels : Labels) (centers : Centers)
    (target : Fin 3 → ℚ) (border : ℕ × ℕ × ℕ) :
    ((dowork array labels centers target border).1 = none ↔
      (totalMaskCount (targetMask labels centers target) : ℚ) ≤ color_threshold * (80 * 60)) ∧
    ((∀ r c, targetMask labels centers target r c = false) →
      dowork array labels centers target border = (none, array)) := by
  constructor
  · rw [threshold_le_iff]
    constructor
    · intro hnone
      by_contra hgt
      push_neg at hgt
      rw [dowork_eq_some array labels centers target border
        (detectionBox_some _ _ _ hgt)] at hnone
      simp at hnone
    · intro hle
      rw [dowork_eq_none array labels centers target border
        (detectionBox_none _ _ _ hle)]
  · intro hz
    have h0 : totalMaskCount (targetMask labels centers target) = 0 := by
      unfold totalMaskCount sum_labels_vertical
      simp [hz]
    exact dowork_eq_none array labels centers target border
      (detectionBox_none _ _ _ (by omega))

/-- C2 (witness): with every pixel labeled 1 and cluster 0 selected,
the mask is all-false and the analysis reports no detection, returning
the input frame unchanged. -/
theorem C2_no_detection_iff_witness :
    (∀ r c, targetMask allLabel1 zeroCenters zeroTarget r c = false) ∧
    dowork uniformRed allLabel1 zeroCenters zeroTarget (9, 9, 9) = (none, uniformRed) :=
  have hz : ∀ r c, targetMask allLabel1 zeroCenters zeroTarget r c = false := by
    intro r c
    rw [mask_allLabel1]
  ⟨hz, (C2_no_detection_iff uniformRed allLabel1 zeroCenters zeroTarget (9, 9, 9)).2 hz⟩

/-- C7 (counterexample): a session whose first capture raises ends with
the failure propagated but with the stop signal never set and no worker
joined — the workers are left running, contrary to the claim. -/
theorem C7_failure_counterexample :
    superRun [CapResult.failure] = ⟨false, false, true, []⟩ ∧
    (superRun [CapResult.failure]).stopSet = false ∧
    (superRun [CapResult.failure]).joinedAll = false := by
  decide

/-- C7 (amended): an acquisition failure propagates (the session ends
with a raised error) but the supervisor neither sets the stop signal nor
joins the workers; the stop signal is set and all workers are joined
exactly when the capture loop runs to completion without failure. -/
theorem C7_failure_amended (caps : List CapResult) :
    ((superRun caps).failed = true ↔ CapResult.failure ∈ caps) ∧
    (superRun caps).stopSet = !(superRun caps).failed ∧
    (superRun caps).joinedAll = !(superRun caps).failed := by
  rcases heq : acquisitionLoop caps [] with q | q
  · have hmem : CapResult.failure ∈ caps := (acquisitionLoop_error_iff caps []).mp ⟨q, heq⟩
    rw [superRun, heq]
    simpa using hmem
  · have hnmem : CapResult.failure ∉ caps := by
      intro hmem
      obtain ⟨e, he⟩ := (acquisitionLoop_error_iff caps []).mpr hmem
      rw [heq] at he
      exact Except.noConfusion he
    rw [superRun, heq]
    simpa using hnmem

/-- C7 (witness): the amended statement at a failure-free capture
list. -/
theorem C7_failure_amended_witness :
    ((superRun [CapResult.frame 5]).failed = true ↔
      CapResult.failure ∈ [CapResult.frame 5]) ∧
    (superRun [CapResult.frame 5]).stopSet = !(superRun [CapResult.frame 5]).failed ∧
    (superRun [CapResult.frame 5]).joinedAll = !(superRun [CapResult.frame 5]).failed :=
  C7_failure_amended [CapResult.frame 5]

/-- C10: when the selected cluster's masked pixel count strictly
exceeds `color_threshold * 4800`, the sets of rows and columns with
nonzero mask counts are both nonempty, so the first/last nonzero-index
computations (`np.min`/`np.max` over `np.nonzero(...)`) are
well-defined and their empty-argument error branch is unreachable. -/
theorem C10_nonzero_sets (labels : Labels) (centers : Centers) (target : Fin 3 → ℚ)
    (h : (totalMaskCount (targetMask labels centers target) : ℚ) > color_threshold * 4800) :
    (rowsNonzero (targetMask labels centers target)).Nonempty ∧
    (colsNonzero (targetMask labels centers target)).Nonempty := by
  rw [threshold_iff] at h
  exact ⟨rowsNonzero_ne _ (by omega), colsNonzero_ne _ (by omega)⟩

/-- C10 (witness): with an all-true mask the guard holds and both
nonzero-index sets are nonempty. -/
theorem C10_nonzero_sets_witness :
    ((totalMaskCount (targetMask allLabel0 zeroCenters zeroTarget) : ℚ) >
      color_threshold * 4800) ∧
    (rowsNonzero (targetMask allLabel0 zeroCenters zeroTarget)).Nonempty ∧
    (colsNonzero (targetMask allLabel0 zeroCenters zeroTarget)).Nonempty :=
  have h : (totalMaskCount (targetMask allLabel0 zeroCenters zeroTarget) : ℚ) >
      color_threshold * 4800 := by
    rw [threshold_iff, total_allLabel0]
    norm_num
  ⟨h, C10_nonzero_sets allLabel0 zeroCenters zeroTarget h⟩

/-- C3: whenever a detection is reported (`dowork` returns a `some`
position), the box stored top/bottom (resp. left/right) are the first
and last downsampled row (resp. column) indices with nonzero mask
count, each scaled by exactly 4; the returned center is the midpoint of
top and bottom; and 0 ≤ top ≤ bottom < 240, 0 ≤ left ≤ right < 320 in
full-resolution coordinates. -/
theorem C3_box_coordinates (array : Frame) (labels : Labels) (centers : Centers)
    (target : Fin 3 → ℚ) (border : ℕ × ℕ × ℕ) (pos : ℚ)
    (h : (dowork array labels centers target border).1 = some pos) :
    ∃ (r0 r1 : Fin 60) (c0 c1 : Fin 80),
      detectionBox labels centers target =
        some (4 * r0.val, 4 * r1.val, 4 * c0.val, 4 * c1.val) ∧
      sum_labels_vertical (targetMask labels centers target) r0 ≠ 0 ∧
      (∀ r, r < r0 → sum_labels_vertical (targetMask labels centers target) r = 0) ∧
      sum_labels_vertical (targetMask labels centers target) r1 ≠ 0 ∧
      (∀ r, r1 < r → sum_labels_vertical (targetMask labels centers target) r = 0) ∧
      sum_labels_horizontal (targetMask labels centers target) c0 ≠ 0 ∧
      (∀ c, c < c0 → sum_labels_horizontal (targetMask labels centers target) c = 0) ∧
      sum_labels_horizontal (targetMask labels centers target) c1 ≠ 0 ∧
      (∀ c, c1 < c → sum_labels_horizontal (targetMask labels centers target) c = 0) ∧
      pos = (((4 * r0.val : ℕ) : ℚ) + ((4 * r1.val : ℕ) : ℚ)) / 2 ∧
      4 * r0.val ≤ 4 * r1.val ∧ 4 * r1.val < 240 ∧
      4 * c0.val ≤ 4 * c1.val ∧ 4 * c1.val < 320 := by
  have hgt : 336 < totalMaskCount (targetMask labels centers target) := by
    by_contra hle
    push_neg at hle
    rw [dowork_eq_none array labels centers target border
      (detectionBox_none _ _ _ hle)] at h
    exact Option.noConfusion h
  have hbox := detectionBox_some labels centers target hgt
  refine ⟨(rowsNonzero (targetMask labels centers target)).min' (rowsNonzero_ne _ (by omega)),
          (rowsNonzero (targetMask labels centers target)).max' (rowsNonzero_ne _ (by omega)),
          (colsNonzero (targetMask labels centers target)).min' (colsNonzero_ne _ (by omega)),
          (colsNonzero (targetMask labels centers target)).max' (colsNonzero_ne _ (by omega)),
          hbox, ?_, ?_, ?_, ?_, ?_, ?_, ?_, ?_, ?_, ?_, ?_, ?_, ?_⟩
  · exact mem_rowsNonzero.mp (Finset.min'_mem _ _)
  · intro r hr
    by_contra hne
    have hmem : r ∈ rowsNonzero (targetMask labels centers target) :=
      mem_rowsNonzero.mpr hne
    exact absurd (Finset.min'_le _ r hmem) (not_le.mpr hr)
  · exact mem_rowsNonzero.mp (Finset.max'_mem _ _)
  · intro r hr
    by_contra hne
    have hmem : r ∈ rowsNonzero (targetMask labels centers target) :=
      mem_rowsNonzero.mpr hne
    exact absurd (Finset.le_max' _ r hmem) (not_le.mpr hr)
  · exact mem_colsNonzero.mp (Finset.min'_mem _ _)
  · intro c hc
    by_contra hne
    have hmem : c ∈ colsNonzero (targetMask labels centers target) :=
      mem_colsNonzero.mpr hne
    exact absurd (Finset.min'_le _ c hmem) (not_le.mpr hc)
  · exact mem_colsNonzero.mp (Finset.max'_mem _ _)
  · intro c hc
    by_contra hne
    have hmem : c ∈ colsNonzero (targetMask labels centers target) :=
      mem_colsNonzero.mpr hne
    exact absurd (Finset.le_max' _ c hmem) (not_le.mpr hc)
  · rw [dowork_eq_some array labels centers target border hbox] at h
    exact (Option.some_inj.mp h).symm
  · have h1 : (rowsNonzero (targetMask labels centers target)).min' (rowsNonzero_ne _ (by omega)) ≤
        (rowsNonzero (targetMask labels centers target)).max' (rowsNonzero_ne _ (by omega)) :=
      Finset.min'_le _ _ (Finset.max'_mem _ _)
    have h2 := Fin.le_def.mp h1
    omega
  · have h3 := ((rowsNonzero (targetMask labels centers target)).max'
      (rowsNonzero_ne _ (by omega))).isLt
    omega
  · have h1 : (colsNonzero (targetMask labels centers target)).min' (colsNonzero_ne _ (by omega)) ≤
        (colsNonzero (targetMask labels centers target)).max' (colsNonzero_ne _ (by omega)) :=
      Finset.min'_le _ _ (Finset.max'_mem _ _)
    have h2 := Fin.le_def.mp h1
    omega
  · have h3 := ((colsNonzero (targetMask labels centers target)).max'
      (colsNonzero_ne _ (by omega))).isLt
    omega

/-- C3 (witness): on the concrete all-true mask the detection fires and
the characterization holds with center 118 and box (0, 236, 0, 316). -/
theorem C3_box_coordinates_witness :
    ((dowork uniformRed allLabel0 zeroCenters zeroTarget (9, 9, 9)).1 = some 118) ∧
    (∃ (r0 r1 : Fin 60) (c0 c1 : Fin 80),
      detectionBox allLabel0 zeroCenters zeroTarget =
        some (4 * r0.val, 4 * r1.val, 4 * c0.val, 4 * c1.val) ∧
      sum_labels_vertical (targetMask allLabel0 zeroCenters zeroTarget) r0 ≠ 0 ∧
      (∀ r, r < r0 → sum_labels_vertical (targetMask allLabel0 zeroCenters zeroTarget) r = 0) ∧
      sum_labels_vertical (targetMask allLabel0 zeroCenters zeroTarget) r1 ≠ 0 ∧
      (∀ r, r1 < r → sum_labels_vertical (targetMask allLabel0 zeroCenters zeroTarget) r = 0) ∧
      sum_labels_horizontal (targetMask allLabel0 zeroCenters zeroTarget) c0 ≠ 0 ∧
      (∀ c, c < c0 → sum_labels_horizontal (targetMask allLabel0 zeroCenters zeroTarget) c = 0) ∧
      sum_labels_horizontal (targetMask allLabel0 zeroCenters zeroTarget) c1 ≠ 0 ∧
      (∀ c, c1 < c → sum_labels_horizontal (targetMask allLabel0 zeroCenters zeroTarget) c = 0) ∧
      (118 : ℚ) = (((4 * r0.val : ℕ) : ℚ) + ((4 * r1.val : ℕ) : ℚ)) / 2 ∧
      4 * r0.val ≤ 4 * r1.val ∧ 4 * r1.val < 240 ∧
      4 * c0.val ≤ 4 * c1.val ∧ 4 * c1.val < 320) :=
  have h : (dowork uniformRed allLabel0 zeroCenters zeroTarget (9, 9, 9)).1 = some 118 :=
    dowork_allLabel0_fst uniformRed (9, 9, 9)
  ⟨h, C3_box_coordinates uniformRed allLabel0 zeroCenters zeroTarget (9, 9, 9) 118 h⟩

/-- C4: the selected cluster minimizes the Euclidean distance from
`target_color` to the centroid's color sub-vector (first 3 of the 5
feature dimensions), and among equidistant clusters the one first in
cluster order is selected. -/
theorem C4_closest_cluster (centers : Centers) (target : Fin 3 → ℚ) :
    (∀ j : Fin 6,
      Real.sqrt ((rgbDist2 centers target (closest_label centers target) : ℚ) : ℝ) ≤
        Real.sqrt ((rgbDist2 centers target j : ℚ) : ℝ)) ∧
    (∀ j : Fin 6,
      Real.sqrt ((rgbDist2 centers target j : ℚ) : ℝ) =
          Real.sqrt ((rgbDist2 centers target (closest_label centers target) : ℚ) : ℝ) →
        closest_label centers target ≤ j) := by
  obtain ⟨hmin, hfirst⟩ := argminIdx_spec (rgbDist2 centers target)
  have hnn : ∀ k : Fin 6, (0 : ℝ) ≤ ((rgbDist2 centers target k : ℚ) : ℝ) := by
    intro k
    have h0 : (0 : ℚ) ≤ rgbDist2 centers target k :=
      Finset.sum_nonneg (fun d _ => sq_nonneg _)
    exact_mod_cast h0
  constructor
  · intro j
    apply Real.sqrt_le_sqrt
    unfold closest_label
    exact_mod_cast hmin j
  · intro j hsq
    have heq : ((rgbDist2 centers target j : ℚ) : ℝ) =
        ((rgbDist2 centers target (closest_label centers target) : ℚ) : ℝ) :=
      (Real.sqrt_inj (hnn j) (hnn _)).mp hsq
    have heq2 : rgbDist2 centers target j =
        rgbDist2 centers target (argminIdx (rgbDist2 centers target)) := by
      exact_mod_cast heq
    unfold closest_label
    apply hfirst
    intro k
    rw [heq2]
    exact hmin k

/-- C4 (witness): clusters 0 and 1 of `tieCenters` are equidistant from
the target; the selected cluster is 0, the first in cluster order. -/
theorem C4_closest_cluster_witness :
    Real.sqrt ((rgbDist2 tieCenters zeroTarget 1 : ℚ) : ℝ) =
      Real.sqrt ((rgbDist2 tieCenters zeroTarget (closest_label tieCenters zeroTarget) : ℚ) : ℝ) ∧
    closest_label tieCenters zeroTarget ≤ 1 :=
  have heq : rgbDist2 tieCenters zeroTarget 1 =
      rgbDist2 tieCenters zeroTarget (closest_label tieCenters zeroTarget) := by
    have hcl : closest_label tieCenters zeroTarget = 0 :=
      argminIdx_eq_zero _ (by
        intro k
        fin_cases k <;>
          simp [rgbDist2, tieCenters, zeroTarget, Fin.sum_univ_three])
    rw [hcl]
    simp [rgbDist2, tieCenters, zeroTarget, Fin.sum_univ_three]
  have hsq : Real.sqrt ((rgbDist2 tieCenters zeroTarget 1 : ℚ) : ℝ) =
      Real.sqrt ((rgbDist2 tieCenters zeroTarget (closest_label tieCenters zeroTarget) : ℚ) : ℝ) := by
    rw [heq]
  ⟨hsq, (C4_closest_cluster tieCenters zeroTarget).2 1 hsq⟩

/-- C8: the analysis never mutates its input frame — the output is a
copy; when no detection is reported the output equals the unmodified
input, and when a detection is reported the output carries
`border_color` exactly on the four box edges and equals the input
everywhere else. -/
theorem C8_output_frame (array : Frame) (labels : Labels) (centers : Centers)
    (target : Fin 3 → ℚ) (border : ℕ × ℕ × ℕ) :
    ((dowork array labels centers target border).1 = none →
      (dowork array labels centers target border).2 = array) ∧
    (∀ pos : ℚ, (dowork array labels centers target border).1 = some pos →
      ∃ mv xv mh xh : ℕ,
        detectionBox labels centers target = some (mv, xv, mh, xh) ∧
        (∀ r c : ℕ, onBoxEdge mv xv mh xh r c = false →
          (dowork array labels centers target border).2 r c = array r c) ∧
        (∀ r c : ℕ, onBoxEdge mv xv mh xh r c = true →
          (dowork array labels centers target border).2 r c = border)) := by
  rcases hbox : detectionBox labels centers target with _ | ⟨mv, xv, mh, xh⟩
  · constructor
    · intro _
      rw [dowork_eq_none array labels centers target border hbox]
    · intro pos hpos
      rw [dowork_eq_none array labels centers target border hbox] at hpos
      exact Option.noConfusion hpos
  · constructor
    · intro hnone
      rw [dowork_eq_some array labels centers target border hbox] at hnone
      exact Option.noConfusion hnone
    · intro pos _
      refine ⟨mv, xv, mh, xh, rfl, ?_, ?_⟩
      · intro r c hedge
        rw [dowork_eq_some array labels centers target border hbox]
        simp [hedge]
      · intro r c hedge
        rw [dowork_eq_some array labels centers target border hbox]
        simp [hedge]

/-- C8 (witness): on the all-false mask no detection is reported and
the output frame is the unmodified input. -/
theorem C8_output_frame_witness :
    ((dowork uniformRed allLabel1 zeroCenters zeroTarget (7, 7, 7)).1 = none) ∧
    (dowork uniformRed allLabel1 zeroCenters zeroTarget (7, 7, 7)).2 = uniformRed :=
  have h : (dowork uniformRed allLabel1 zeroCenters zeroTarget (7, 7, 7)).1 = none := by
    rw [dowork_allLabel1_none]
  ⟨h, (C8_output_frame uniformRed allLabel1 zeroCenters zeroTarget (7, 7, 7)).1 h⟩

theorem machineInv_init : MachineInv initState := by
  refine ⟨by simp [initState, queueCapacity], ?_, ?_⟩
  · intro t
    cases t with
    | prod =>
      constructor
      · intro hc
        exact absurd rfl hc
      · intro hl
        exact Option.noConfusion hl
    | work i =>
      constructor
      · intro hc
        rcases hc with hc | hc | hc | hc <;> exact WPc.noConfusion hc
      · intro hl
        exact Option.noConfusion hl
  · intro hc
    exact PPc.noConfusion hc

theorem machineInv_step {s s' : MState} (hs : MachineInv s) (hstep : MStep s s') :
    MachineInv s' := by
  obtain ⟨hlen, hlock, hput⟩ := hs
  cases hstep with
  | pAcquire h1 h2 =>
    refine ⟨hlen, ?_, fun hc => PPc.noConfusion hc⟩
    intro t
    cases t with
    | prod =>
      constructor
      · intro _
        rfl
      · intro _
        exact fun hp => PPc.noConfusion hp
    | work i =>
      constructor
      · intro hcrit
        have hx := (hlock (Tid.work i)).mp hcrit
        rw [h1] at hx
        exact Option.noConfusion hx
      · intro hl
        injection hl with hl
        exact Tid.noConfusion hl
  | pFull h hf =>
    refine ⟨hlen, ?_, fun hc => PPc.noConfusion hc⟩
    intro t
    cases t with
    | prod =>
      have hlp : s.lock = some Tid.prod := (hlock Tid.prod).mp (by
        show s.ppc ≠ PPc.p0
        rw [h]
        exact fun hc => PPc.noConfusion hc)
      exact ⟨fun _ => hlp, fun _ => fun hc => PPc.noConfusion hc⟩
    | work i =>
      exact hlock (Tid.work i)
  | pNotFull h hf =>
    refine ⟨hlen, ?_, fun _ => hf⟩
    intro t
    cases t with
    | prod =>
      have hlp : s.lock = some Tid.prod := (hlock Tid.prod).mp (by
        show s.ppc ≠ PPc.p0
        rw [h]
        exact fun hc => PPc.noConfusion hc)
      exact ⟨fun _ => hlp, fun _ => fun hc => PPc.noConfusion hc⟩
    | work i =>
      exact hlock (Tid.work i)
  | pGet h =>
    refine ⟨?_, ?_, fun hc => PPc.noConfusion hc⟩
    · show s.q.tail.length ≤ queueCapacity
      rw [List.length_tail]
      omega
    · intro t
      cases t with
      | prod =>
        have hlp : s.lock = some Tid.prod := (hlock Tid.prod).mp (by
          show s.ppc ≠ PPc.p0
          rw [h]
          exact fun hc => PPc.noConfusion hc)
        exact ⟨fun _ => hlp, fun _ => fun hc => PPc.noConfusion hc⟩
      | work i =>
        exact hlock (Tid.work i)
  | pPut h =>
    have hlt := hput h
    refine ⟨?_, ?_, fun hc => PPc.noConfusion hc⟩
    · show (s.q ++ [s.nextF]).length ≤ queueCapacity
      rw [List.length_append]
      simp only [List.length_singleton]
      omega
    · intro t
      cases t with
      | prod =>
        have hlp : s.lock = some Tid.prod := (hlock Tid.prod).mp (by
          show s.ppc ≠ PPc.p0
          rw [h]
          exact fun hc => PPc.noConfusion hc)
        exact ⟨fun _ => hlp, fun _ => fun hc => PPc.noConfusion hc⟩
      | work i =>
        exact hlock (Tid.work i)
  | pRelease h =>
    refine ⟨hlen, ?_, fun hc => PPc.noConfusion hc⟩
    intro t
    have hlp : s.lock = some Tid.prod := (hlock Tid.prod).mp (by
      show s.ppc ≠ PPc.p0
      rw [h]
      exact fun hc => PPc.noConfusion hc)
    cases t with
    | prod =>
      constructor
      · intro hcrit
        exact absurd rfl hcrit
      · intro hl
        exact Option.noConfusion hl
    | work i =>
      constructor
      · intro hcrit
        have hx := (hlock (Tid.work i)).mp hcrit
        rw [hlp] at hx
        injection hx with hx
        exact Tid.noConfusion hx
      · intro hl
        exact Option.noConfusion hl
  | wAcquire i h1 h2 =>
    refine ⟨hlen, ?_, fun hc => hput hc⟩
    intro t
    cases t with
    | prod =>
      constructor
      · intro hcrit
        have hx := (hlock Tid.prod).mp hcrit
        rw [h1] at hx
        exact Option.noConfusion hx
      · intro hl
        injection hl with hl
        exact Tid.noConfusion hl
    | work j =>
      by_cases hij : j = i
      · subst hij
        constructor
        · intro _
          rfl
        · intro _
          exact Or.inl (Function.update_same j WPc.w1 s.wpc)
      · have hupd : Function.update s.wpc i WPc.w1 j = s.wpc j :=
          Function.update_noteq hij _ _
        have hw2 : ¬ holdsRegion s (Tid.work j) := by
          intro hc
          have hx := (hlock (Tid.work j)).mp hc
          rw [h1] at hx
          exact Option.noConfusion hx
        show (Function.update s.wpc i WPc.w1 j = WPc.w1 ∨
            Function.update s.wpc i WPc.w1 j = WPc.w2 ∨
            Function.update s.wpc i WPc.w1 j = WPc.w3 ∨
            Function.update s.wpc i WPc.w1 j = WPc.w5) ↔
          some (Tid.work i) = some (Tid.work j)
        rw [hupd]
        constructor
        · intro hc
          exact absurd hc hw2
        · intro hl
          injection hl with hl
          injection hl with hl
          exact absurd hl.symm hij
  | wGetSucc i h hq =>
    refine ⟨?_, ?_, ?_⟩
    · show s.q.tail.length ≤ queueCapacity
      rw [List.length_tail]
      omega
    · intro t
      have hli : s.lock = some (Tid.work i) := (hlock (Tid.work i)).mp (Or.inl h)
      cases t with
      | prod =>
        exact hlock Tid.prod
      | work j =>
        by_cases hij : j = i
        · subst hij
          exact ⟨fun _ => hli, fun _ => Or.inr (Or.inl (Function.update_same j WPc.w2 s.wpc))⟩
        · have hupd : Function.update s.wpc i WPc.w2 j = s.wpc j :=
            Function.update_noteq hij _ _
          show (Function.update s.wpc i WPc.w2 j = WPc.w1 ∨
              Function.update s.wpc i WPc.w2 j = WPc.w2 ∨
              Function.update s.wpc i WPc.w2 j = WPc.w3 ∨
              Function.update s.wpc i WPc.w2 j = WPc.w5) ↔
            s.lock = some (Tid.work j)
          rw [hupd]
          exact hlock (Tid.work j)
    · intro hc
      have hlt := hput hc
      show s.q.tail.length < queueCapacity
      rw [List.length_tail]
      omega
  | wGetEmpty i h hq =>
    refine ⟨hlen, ?_, fun hc => hput hc⟩
    intro t
    have hli : s.lock = some (Tid.work i) := (hlock (Tid.work i)).mp (Or.inl h)
    cases t with
    | prod =>
      exact hlock Tid.prod
    | work j =>
      by_cases hij : j = i
      · subst hij
        exact ⟨fun _ => hli,
          fun _ => Or.inr (Or.inr (Or.inr (Function.update_same j WPc.w5 s.wpc)))⟩
      · have hupd : Function.update s.wpc i WPc.w5 j = s.wpc j :=
          Function.update_noteq hij _ _
        show (Function.update s.wpc i WPc.w5 j = WPc.w1 ∨
            Function.update s.wpc i WPc.w5 j = WPc.w2 ∨
            Function.update s.wpc i WPc.w5 j = WPc.w3 ∨
            Function.update s.wpc i WPc.w5 j = WPc.w5) ↔
          s.lock = some (Tid.work j)
        rw [hupd]
        exact hlock (Tid.work j)
  | wAnalyze i h =>
    refine ⟨hlen, ?_, fun hc => hput hc⟩
    intro t
    have hli : s.lock = some (Tid.work i) :=
      (hlock (Tid.work i)).mp (Or.inr (Or.inl h))
    cases t with
    | prod =>
      exact hlock Tid.prod
    | work j =>
      by_cases hij : j = i
      · subst hij
        exact ⟨fun _ => hli,
          fun _ => Or.inr (Or.inr (Or.inl (Function.update_same j WPc.w3 s.wpc)))⟩
      · have hupd : Function.update s.wpc i WPc.w3 j = s.wpc j :=
          Function.update_noteq hij _ _
        show (Function.update s.wpc i WPc.w3 j = WPc.w1 ∨
            Function.update s.wpc i WPc.w3 j = WPc.w2 ∨
            Function.update s.wpc i WPc.w3 j = WPc.w3 ∨
            Function.update s.wpc i WPc.w3 j = WPc.w5) ↔
          s.lock = some (Tid.work j)
        rw [hupd]
        exact hlock (Tid.work j)
  | wRelease i h =>
    refine ⟨hlen, ?_, fun hc => hput hc⟩
    intro t
    have hli : s.lock = some (Tid.work i) :=
      (hlock (Tid.work i)).mp (Or.inr (Or.inr (Or.inl h)))
    cases t with
    | prod =>
      constructor
      · intro hcrit
        have hx := (hlock Tid.prod).mp hcrit
        rw [hli] at hx
        injection hx with hx
        exact Tid.noConfusion hx
      · intro hl
        exact Option.noConfusion hl
    | work j =>
      by_cases hij : j = i
      · subst hij
        constructor
        · intro hc
          have hc2 : Function.update s.wpc j WPc.w4 j = WPc.w1 ∨
              Function.update s.wpc j WPc.w4 j = WPc.w2 ∨
              Function.update s.wpc j WPc.w4 j = WPc.w3 ∨
              Function.update s.wpc j WPc.w4 j = WPc.w5 := hc
          rw [Function.update_same] at hc2
          rcases hc2 with hc2 | hc2 | hc2 | hc2 <;> exact WPc.noConfusion hc2
        · intro hl
          exact Option.noConfusion hl
      · constructor
        · intro hcrit
          have hupd : Function.update s.wpc i WPc.w4 j = s.wpc j :=
            Function.update_noteq hij _ _
          have hc0 : Function.update s.wpc i WPc.w4 j = WPc.w1 ∨
              Function.update s.wpc i WPc.w4 j = WPc.w2 ∨
              Function.update s.wpc i WPc.w4 j = WPc.w3 ∨
              Function.update s.wpc i WPc.w4 j = WPc.w5 := hcrit
          rw [hupd] at hc0
          have hx := (hlock (Tid.work j)).mp hc0
          rw [hli] at hx
          injection hx with hx
          injection hx with hx
          exact absurd hx.symm hij
        · intro hl
          exact Option.noConfusion hl
  | wReleaseEmpty i h =>
    refine ⟨hlen, ?_, fun hc => hput hc⟩
    intro t
    have hli : s.lock = some (Tid.work i) :=
      (hlock (Tid.work i)).mp (Or.inr (Or.inr (Or.inr h)))
    cases t with
    | prod =>
      constructor
      · intro hcrit
        have hx := (hlock Tid.prod).mp hcrit
        rw [hli] at hx
        injection hx with hx
        exact Tid.noConfusion hx
      · intro hl
        exact Option.noConfusion hl
    | work j =>
      by_cases hij : j = i
      · subst hij
        constructor
        · intro hc
          have hc2 : Function.update s.wpc j WPc.w0 j = WPc.w1 ∨
              Function.update s.wpc j WPc.w0 j = WPc.w2 ∨
              Function.update s.wpc j WPc.w0 j = WPc.w3 ∨
              Function.update s.wpc j WPc.w0 j = WPc.w5 := hc
          rw [Function.update_same] at hc2
          rcases hc2 with hc2 | hc2 | hc2 | hc2 <;> exact WPc.noConfusion hc2
        · intro hl
          exact Option.noConfusion hl
      · constructor
        · intro hcrit
          have hupd : Function.update s.wpc i WPc.w0 j = s.wpc j :=
            Function.update_noteq hij _ _
          have hc0 : Function.update s.wpc i WPc.w0 j = WPc.w1 ∨
              Function.update s.wpc i WPc.w0 j = WPc.w2 ∨
              Function.update s.wpc i WPc.w0 j = WPc.w3 ∨
              Function.update s.wpc i WPc.w0 j = WPc.w5 := hcrit
          rw [hupd] at hc0
          have hx := (hlock (Tid.work j)).mp hc0
          rw [hli] at hx
          injection hx with hx
          injection hx with hx
          exact absurd hx.symm hij
        · intro hl
          exact Option.noConfusion hl
  | wDisplay i h =>
    refine ⟨hlen, ?_, fun hc => hput hc⟩
    intro t
    have hnl : s.lock ≠ some (Tid.work i) := by
      intro hx
      have hc : s.wpc i = WPc.w1 ∨ s.wpc i = WPc.w2 ∨ s.wpc i = WPc.w3 ∨
          s.wpc i = WPc.w5 :=
        (hlock (Tid.work i)).mpr hx
      rw [h] at hc
      rcases hc with hc | hc | hc | hc <;> exact WPc.noConfusion hc
    cases t with
    | prod =>
      exact hlock Tid.prod
    | work j =>
      by_cases hij : j = i
      · subst hij
        constructor
        · intro hc
          have hc2 : Function.update s.wpc j WPc.w0 j = WPc.w1 ∨
              Function.update s.wpc j WPc.w0 j = WPc.w2 ∨
              Function.update s.wpc j WPc.w0 j = WPc.w3 ∨
              Function.update s.wpc j WPc.w0 j = WPc.w5 := hc
          rw [Function.update_same] at hc2
          rcases hc2 with hc2 | hc2 | hc2 | hc2 <;> exact WPc.noConfusion hc2
        · intro hl
          exact absurd hl hnl
      · have hupd : Function.update s.wpc i WPc.w0 j = s.wpc j :=
          Function.update_noteq hij _ _
        show (Function.update s.wpc i WPc.w0 j = WPc.w1 ∨
            Function.update s.wpc i WPc.w0 j = WPc.w2 ∨
            Function.update s.wpc i WPc.w0 j = WPc.w3 ∨
            Function.update s.wpc i WPc.w0 j = WPc.w5) ↔
          s.lock = some (Tid.work j)
        rw [hupd]
        exact hlock (Tid.work j)

theorem reachable_inv {s : MState} (h : Reachable s) : MachineInv s := by
  unfold Reachable at h
  induction h with
  | refl => exact machineInv_init
  | tail _ hstep ih => exact machineInv_step ih hstep

/-- C5: in every reachable interleaving of the acquisition loop and the
three workers, the queue length stays in [0, 10], and any thread whose
next statement touches the shared queue holds the single mutex. -/
theorem C5_queue_bounds (s : MState) (h : Reachable s) :
    (0 ≤ s.q.length ∧ s.q.length ≤ queueCapacity) ∧
    (∀ t : Tid, accessingQueue s t → s.lock = some t) := by
  obtain ⟨hlen, hlock, _⟩ := reachable_inv h
  refine ⟨⟨Nat.zero_le _, hlen⟩, ?_⟩
  intro t ha
  cases t with
  | prod =>
    apply (hlock Tid.prod).mp
    show s.ppc ≠ PPc.p0
    rcases ha with h1 | h1 | h1 <;> rw [h1] <;> exact fun hc => PPc.noConfusion hc
  | work i =>
    apply (hlock (Tid.work i)).mp
    exact Or.inl ha

/-- C5 (witness): the invariant at the initial state. -/
theorem C5_queue_bounds_witness :
    Reachable initState ∧
    ((0 ≤ initState.q.length ∧ initState.q.length ≤ queueCapacity) ∧
      (∀ t : Tid, accessingQueue initState t → initState.lock = some t)) :=
  ⟨Relation.ReflTransGen.refl, C5_queue_bounds initState Relation.ReflTransGen.refl⟩

/-- C6 (counterexample): a reachable state in which worker 0's next
statement is the per-frame analysis (`dowork`, program point `w2`)
while it holds the shared lock — the worker's critical section is not
an O(1) queue operation with the analysis outside the lock: the
notebook runs `dowork` inside the `try` block, before the `finally`
that releases the lock. -/
theorem C6_analysis_under_lock_counterexample :
    Reachable traceS6 ∧ traceS6.wpc 0 = WPc.w2 ∧ traceS6.lock = some (Tid.work 0) := by
  refine ⟨?_, ?_, rfl⟩
  · have h1 : MStep initState traceS1 := MStep.pAcquire initState rfl rfl
    have h2 : MStep traceS1 traceS2 := MStep.pNotFull traceS1 rfl (by decide)
    have h3 : MStep traceS2 traceS3 := MStep.pPut traceS2 rfl
    have h4 : MStep traceS3 traceS4 := MStep.pRelease traceS3 rfl
    have h5 : MStep traceS4 traceS5 := MStep.wAcquire traceS4 0 rfl rfl
    have h6 : MStep traceS5 traceS6 := MStep.wGetSucc traceS5 0 (by
      show Function.update (fun _ => WPc.w0) 0 WPc.w1 0 = WPc.w1
      rw [Function.update_same]) (by
      intro hc
      exact List.noConfusion hc)
    exact Relation.ReflTransGen.tail (Relation.ReflTransGen.tail (Relation.ReflTransGen.tail
      (Relation.ReflTransGen.tail (Relation.ReflTransGen.tail
        (Relation.ReflTransGen.single h1) h2) h3) h4) h5) h6
  · show Function.update (Function.update (fun _ => WPc.w0) 0 WPc.w1) 0 WPc.w2 0 = WPc.w2
    rw [Function.update_same]

/-- C6 (amended): in every reachable state a worker about to run the
per-frame analysis (`dowork`, program point `w2`) holds the shared
lock, while a worker about to run the display hand-off (`showarray`,
program point `w4`) does not: the notebook's critical section contains
the whole analysis and only the display happens with the lock
released. -/
theorem C6_critical_section_amended (s : MState) (h : Reachable s) (i : Fin 3) :
    (s.wpc i = WPc.w2 → s.lock = some (Tid.work i)) ∧
    (s.wpc i = WPc.w4 → s.lock ≠ some (Tid.work i)) := by
  obtain ⟨_, hlock, _⟩ := reachable_inv h
  constructor
  · intro h2
    exact (hlock (Tid.work i)).mp (Or.inr (Or.inl h2))
  · intro h4 hx
    have hc : s.wpc i = WPc.w1 ∨ s.wpc i = WPc.w2 ∨ s.wpc i = WPc.w3 ∨
        s.wpc i = WPc.w5 :=
      (hlock (Tid.work i)).mpr hx
    rw [h4] at hc
    rcases hc with hc | hc | hc | hc <;> exact WPc.noConfusion hc

/-- C6 (witness): the amended statement at the initial state for
worker 0. -/
theorem C6_critical_section_amended_witness :
    Reachable initState ∧
    ((initState.wpc 0 = WPc.w2 → initState.lock = some (Tid.work 0)) ∧
      (initState.wpc 0 = WPc.w4 → initState.lock ≠ some (Tid.work 0))) :=
  ⟨Relation.ReflTransGen.refl,
    C6_critical_section_amended initState Relation.ReflTransGen.refl 0⟩

set_option maxRecDepth 100000 in
theorem strip_nonempty : ∀ j : Fin 6, 0 < clusterSize stripLabels j := by
  decide

theorem clusterSize_strip (j : Fin 6) : clusterSize stripLabels j = 60 * stripWidth j := by
  show (∑ _r : Fin 60, (Finset.univ.filter (fun c => stripIdx c = j)).card) =
    60 * stripWidth j
  rw [Finset.sum_const]
  simp [stripWidth, stripCols, Finset.card_univ]

theorem rowValSum : (∑ r : Fin 60, ((r : ℕ) : ℚ)) = 1770 := by
  have h : (∑ r : Fin 60, (r : ℕ)) = 1770 := by decide
  exact_mod_cast h

set_option maxRecDepth 100000 in
theorem colValSum2 :
    ∀ j : Fin 6, 2 * (∑ c ∈ stripCols j, (c : ℕ)) = stripWidth j * mTwiceNat j := by
  decide

theorem strip_centroid_d0 (j : Fin 6) :
    (clusterSize stripLabels j : ℚ) * stripCenters j 0 =
      ∑ r : Fin 60, ∑ c : Fin 80, if stripLabels r c = j then uniformFeats r c 0 else 0 := by
  have hc : stripCenters j 0 = 255 := rfl
  have hu : ∀ (r : Fin 60) (c : Fin 80), uniformFeats r c 0 = (255 : ℚ) := fun _ _ => rfl
  have hl : ∀ (r : Fin 60) (c : Fin 80), stripLabels r c = stripIdx c := fun _ _ => rfl
  have hW : (Finset.univ.filter (fun c => stripIdx c = j)).card = stripWidth j := rfl
  simp only [hc, hu, hl]
  rw [clusterSize_strip]
  simp only [← Finset.sum_filter]
  simp only [Finset.sum_const, hW, Finset.card_univ, Fintype.card_fin, smul_eq_mul,
    nsmul_eq_mul]
  push_cast
  ring

theorem strip_centroid_d1 (j : Fin 6) :
    (clusterSize stripLabels j : ℚ) * stripCenters j 1 =
      ∑ r : Fin 60, ∑ c : Fin 80, if stripLabels r c = j then uniformFeats r c 1 else 0 := by
  have hc : stripCenters j 1 = 0 := rfl
  have hu : ∀ (r : Fin 60) (c : Fin 80), uniformFeats r c 1 = (0 : ℚ) := fun _ _ => rfl
  simp [hc, hu]

theorem strip_centroid_d2 (j : Fin 6) :
    (clusterSize stripLabels j : ℚ) * stripCenters j 2 =
      ∑ r : Fin 60, ∑ c : Fin 80, if stripLabels r c = j then uniformFeats r c 2 else 0 := by
  have hc : stripCenters j 2 = 0 := rfl
  have hu : ∀ (r : Fin 60) (c : Fin 80), uniformFeats r c 2 = (0 : ℚ) := fun _ _ => rfl
  simp [hc, hu]

theorem strip_centroid_d3 (j : Fin 6) :
    (clusterSize stripLabels j : ℚ) * stripCenters j 3 =
      ∑ r : Fin 60, ∑ c : Fin 80, if stripLabels r c = j then uniformFeats r c 3 else 0 := by
  have hc : stripCenters j 3 = 59 / 2 := rfl
  have hu : ∀ (r : Fin 60) (c : Fin 80), uniformFeats r c 3 = ((r : ℕ) : ℚ) := fun _ _ => rfl
  have hl : ∀ (r : Fin 60) (c : Fin 80), stripLabels r c = stripIdx c := fun _ _ => rfl
  have hW : (Finset.univ.filter (fun c => stripIdx c = j)).card = stripWidth j := rfl
  simp only [hc, hu, hl]
  rw [clusterSize_strip]
  simp only [← Finset.sum_filter]
  simp only [Finset.sum_const, hW, nsmul_eq_mul]
  rw [← Finset.mul_sum, rowValSum]
  push_cast
  ring

theorem strip_centroid_d4 (j : Fin 6) :
    (clusterSize stripLabels j : ℚ) * stripCenters j 4 =
      ∑ r : Fin 60, ∑ c : Fin 80, if stripLabels r c = j then uniformFeats r c 4 else 0 := by
  have hc : stripCenters j 4 = stripColMean j := rfl
  have hu : ∀ (r : Fin 60) (c : Fin 80), uniformFeats r c 4 = ((c : ℕ) : ℚ) := fun _ _ => rfl
  have hl : ∀ (r : Fin 60) (c : Fin 80), stripLabels r c = stripIdx c := fun _ _ => rfl
  have hS : Finset.univ.filter (fun c => stripIdx c = j) = stripCols j := rfl
  have hsum : 2 * (∑ c ∈ stripCols j, ((c : ℕ) : ℚ)) =
      (stripWidth j : ℚ) * (mTwiceNat j : ℚ) := by
    exact_mod_cast colValSum2 j
  simp only [hc, hu, hl]
  rw [clusterSize_strip]
  simp only [← Finset.sum_filter, hS]
  rw [Finset.sum_const, Finset.card_univ, Fintype.card_fin]
  simp only [nsmul_eq_mul]
  unfold stripColMean
  push_cast
  push_cast at hsum
  nlinarith [hsum]

set_option maxRecDepth 40000 in
theorem strip_int_ineq :
    ∀ (c : Fin 80) (j : Fin 6),
      (2 * ((c : ℕ) : ℤ) - (mTwiceNat (stripIdx c) : ℤ)) ^ 2 ≤
        (2 * ((c : ℕ) : ℤ) - (mTwiceNat j : ℤ)) ^ 2 := by
  decide

theorem sq_reduce (c : Fin 80) (j : Fin 6) :
    ((c : ℚ) - stripColMean j) ^ 2 =
      (2 * ((c : ℕ) : ℚ) - (mTwiceNat j : ℚ)) ^ 2 / 4 := by
  unfold stripColMean
  have hcast : (c : ℚ) = ((c : ℕ) : ℚ) := rfl
  rw [hcast]
  ring

theorem strip_nearest (c : Fin 80) (j : Fin 6) :
    ((c : ℚ) - stripColMean (stripIdx c)) ^ 2 ≤ ((c : ℚ) - stripColMean j) ^ 2 := by
  rw [sq_reduce, sq_reduce]
  have hq : (2 * ((c : ℕ) : ℚ) - (mTwiceNat (stripIdx c) : ℚ)) ^ 2 ≤
      (2 * ((c : ℕ) : ℚ) - (mTwiceNat j : ℚ)) ^ 2 := by
    exact_mod_cast strip_int_ineq c j
  linarith

theorem strip_assign (r : Fin 60) (c : Fin 80) (j : Fin 6) :
    featDist2 (uniformFeats r c) (stripCenters (stripLabels r c)) ≤
      featDist2 (uniformFeats r c) (stripCenters j) := by
  have key := strip_nearest c j
  unfold featDist2
  rw [Fin.sum_univ_five, Fin.sum_univ_five]
  have u0 : uniformFeats r c 0 = 255 := rfl
  have u1 : uniformFeats r c 1 = 0 := rfl
  have u2 : uniformFeats r c 2 = 0 := rfl
  have u3 : uniformFeats r c 3 = (r : ℚ) := rfl
  have u4 : uniformFeats r c 4 = (c : ℚ) := rfl
  have s0 : ∀ k : Fin 6, stripCenters k 0 = 255 := fun _ => rfl
  have s1 : ∀ k : Fin 6, stripCenters k 1 = 0 := fun _ => rfl
  have s2 : ∀ k : Fin 6, stripCenters k 2 = 0 := fun _ => rfl
  have s3 : ∀ k : Fin 6, stripCenters k 3 = 59 / 2 := fun _ => rfl
  have s4 : ∀ k : Fin 6, stripCenters k 4 = stripColMean k := fun _ => rfl
  have hl : stripLabels r c = stripIdx c := rfl
  simp only [u0, u1, u2, u3, u4, s0, s1, s2, s3, s4, hl]
  linarith

theorem strip_centroid (j : Fin 6) (d : Fin 5) :
    (clusterSize stripLabels j : ℚ) * stripCenters j d =
      ∑ r : Fin 60, ∑ c : Fin 80, if stripLabels r c = j then uniformFeats r c d else 0 := by
  fin_cases d
  · exact strip_centroid_d0 j
  · exact strip_centroid_d1 j
  · exact strip_centroid_d2 j
  · exact strip_centroid_d3 j
  · exact strip_centroid_d4 j

theorem strip_outcome : IsKMeansOutcome uniformFeats stripLabels stripCenters :=
  ⟨strip_nonempty, strip_centroid, strip_assign⟩

theorem rgbDist2_strip_zero (j : Fin 6) : rgbDist2 stripCenters targetRed j = 0 := by
  unfold rgbDist2
  rw [Fin.sum_univ_three]
  have e0 : stripCenters j (Fin.castLE (by norm_num) (0 : Fin 3)) = 255 := rfl
  have e1 : stripCenters j (Fin.castLE (by norm_num) (1 : Fin 3)) = 0 := rfl
  have e2 : stripCenters j (Fin.castLE (by norm_num) (2 : Fin 3)) = 0 := rfl
  have t0 : targetRed 0 = 255 := rfl
  have t1 : targetRed 1 = 0 := rfl
  have t2 : targetRed 2 = 0 := rfl
  rw [e0, e1, e2, t0, t1, t2]
  norm_num

theorem closest_label_strip : closest_label stripCenters targetRed = 0 := by
  unfold closest_label
  apply argminIdx_eq_zero
  intro k
  rw [rgbDist2_strip_zero, rgbDist2_strip_zero]

theorem mask_strip :
    targetMask stripLabels stripCenters targetRed = fun _ c => stripIdx c == 0 := by
  funext r c
  unfold targetMask
  rw [closest_label_strip]
  rfl

set_option maxRecDepth 100000 in
theorem box_strip :
    detectionBox stripLabels stripCenters targetRed = some (0, 236, 0, 52) := by
  have h336 : 336 < totalMaskCount (targetMask stripLabels stripCenters targetRed) := by
    rw [mask_strip]
    decide
  rw [detectionBox_some _ _ _ h336]
  have e1 : ∀ H, (rowsNonzero (targetMask stripLabels stripCenters targetRed)).min' H =
      (0 : Fin 60) := by
    intro H
    apply Fin.le_zero_iff.mp
    apply Finset.min'_le
    rw [mask_strip]
    decide
  have e2 : ∀ H, (rowsNonzero (targetMask stripLabels stripCenters targetRed)).max' H =
      (⟨59, by norm_num⟩ : Fin 60) := by
    intro H
    apply le_antisymm
    · rw [Fin.le_def]
      have hlt := ((rowsNonzero (targetMask stripLabels stripCenters targetRed)).max' H).isLt
      show ((rowsNonzero (targetMask stripLabels stripCenters targetRed)).max' H).val ≤ 59
      omega
    · apply Finset.le_max'
      rw [mask_strip]
      decide
  have e3 : ∀ H, (colsNonzero (targetMask stripLabels stripCenters targetRed)).min' H =
      (0 : Fin 80) := by
    intro H
    apply Fin.le_zero_iff.mp
    apply Finset.min'_le
    rw [mask_strip]
    decide
  have e4 : ∀ H, (colsNonzero (targetMask stripLabels stripCenters targetRed)).max' H =
      (⟨13, by norm_num⟩ : Fin 80) := by
    intro H
    apply le_antisymm
    · apply Finset.max'_le
      rw [mask_strip]
      decide
    · apply Finset.le_max'
      rw [mask_strip]
      decide
  rw [e1, e2, e3, e4]
  rfl

theorem dowork_strip_fst (array : Frame) (border : ℕ × ℕ × ℕ) :
    (dowork array stripLabels stripCenters targetRed border).1 = some 118 := by
  rw [dowork_eq_some array stripLabels stripCenters targetRed border box_strip]
  norm_num

/-- C9 (counterexample): the vertical-strip partition is a legitimate
converged KMeans outcome on the uniformly red frame (every centroid is
the mean of its members and every pixel is assigned to a nearest
centroid), yet the detection box it produces is (0, 236, 0, 52) — the
full height but only the first strip's columns — not a box spanning the
entire frame (0, 236, 0, 316): with the two position features, a
uniformly colored frame is split spatially into six clusters and only
the first one is selected. -/
theorem C9_uniform_counterexample :
    IsKMeansOutcome uniformFeats stripLabels stripCenters ∧
    detectionBox stripLabels stripCenters targetRed = some (0, 236, 0, 52) ∧
    detectionBox stripLabels stripCenters targetRed ≠ some (0, 236, 0, 316) := by
  refine ⟨strip_outcome, box_strip, ?_⟩
  rw [box_strip]
  intro hc
  injection hc with hc
  simp at hc

/-- C9 (amended): on a uniformly red 320×240 frame with
target_color (255, 0, 0) and threshold 0.07, every cluster centroid of
a converged clustering has color distance exactly 0 to the target, the
first cluster is selected, and a detection is reported with center 118,
top 0 and bottom 236; but the box spans only the selected cluster's
spatial extent — for the converged vertical-strip partition it is
(top 0, bottom 236, left 0, right 52), not the entire frame. -/
theorem C9_uniform_amended :
    IsKMeansOutcome uniformFeats stripLabels stripCenters ∧
    (∀ j : Fin 6, rgbDist2 stripCenters targetRed j = 0) ∧
    closest_label stripCenters targetRed = 0 ∧
    (dowork uniformRed stripLabels stripCenters targetRed (0, 255, 0)).1 = some 118 ∧
    detectionBox stripLabels stripCenters targetRed = some (0, 236, 0, 52) :=
  ⟨strip_outcome, rgbDist2_strip_zero, closest_label_strip,
    dowork_strip_fst uniformRed (0, 255, 0), box_strip⟩
